import Mathlib

/-!
Shallow embedding of the calendar trigger plugin
(`server-plugins/calendar-resources/src/index.ts`) and of the markup
migration tool (`dev/tool/src/markup.ts`) of the huly platform,
together with proofs of the specified replication and migration
properties.

Conventions of the embedding:
* document references (`Ref<...>`) are `Nat` for documents looked up by
  id and `String` for class names, spaces and attachment references;
* the host store reachable through `TriggerControl.findAll` /
  `modelDb.findAllSync` is a `Store` record of lists, and each query of
  the source becomes the corresponding `List.filter` / `find?`;
* the transaction factory (`createTxCreateDoc`, `createTxUpdateDoc`,
  `createTxRemoveDoc`, `createTxCollectionCUD`) becomes the constructors
  of the inductive type `Tx`;
* `a ?? b` (nullish coalescing) becomes `Option.getD`;
* a JS `Set` (insertion ordered, duplicate free) becomes a duplicate
  free `List` built by `jsSetOfList`, with deletion as `List.filter`.
-/

namespace Calendar

/-- An `Event` document.  `payload` stands for the remaining content
fields (title, date, ...) that the trigger copies verbatim; update
operations are an association list from field name to new value. -/
structure Event where
  _id : Nat
  _class : String
  space : String
  eventId : String
  calendar : Nat
  access : String
  participants : List Nat
  attachedTo : String
  attachedToClass : String
  collection : String
  createdBy : Option Nat
  modifiedBy : Nat
  visibility : Option String
  payload : List (String × String)
  deriving Repr, DecidableEq

/-- A `Calendar` document.  `isDefault` models the `default` flag read
through the `ExternalCalendar` cast (absent, hence falsy, on plain
calendars). -/
structure CalendarDoc where
  _id : Nat
  name : String
  hidden : Bool
  visibility : String
  createdBy : Option Nat
  modifiedBy : Nat
  isDefault : Bool
  deriving Repr, DecidableEq

/-- A `PersonAccount` document. -/
structure PersonAccount where
  _id : Nat
  email : String
  person : Nat
  deriving Repr, DecidableEq

/-- The copied attributes of a reader copy: the owner event minus the
destructured `_class`, `space`, `attachedTo`, `attachedToClass`,
`collection`, with `calendar` and `access` overridden. -/
structure EventCopyData where
  origId : Nat
  eventId : String
  calendar : Nat
  access : String
  participants : List Nat
  createdBy : Option Nat
  modifiedByOrig : Nat
  visibility : Option String
  payload : List (String × String)
  deriving Repr, DecidableEq

/-- Outgoing transactions, mirroring the host transaction factory. -/
inductive Tx where
  | createCalendarDoc (objectId : String) (name : String) (hidden : Bool)
      (visibility : String) (modifiedBy : Nat)
  | createEventDoc (objectClass : String) (space : String)
      (data : EventCopyData) (modifiedBy : Nat)
  | updateEventDoc (objectClass : String) (space : String) (objectId : Nat)
      (operations : List (String × String))
  | removeEventDoc (objectClass : String) (space : String) (objectId : Nat)
  | collectionCUD (attachedToClass : String) (attachedTo : String)
      (space : String) (collection : String) (modifiedBy : Option Nat)
      (inner : Tx)
  deriving Repr, DecidableEq

/-- The document store visible through `control.findAll` and
`control.modelDb`. -/
structure Store where
  events : List Event
  calendars : List CalendarDoc
  accounts : List PersonAccount
  deriving Repr

/-- JS `new Set(list)`: keep the first occurrence of each element. -/
def jsSetAdd (s : List Nat) (x : Nat) : List Nat :=
  if x ∈ s then s else s ++ [x]

def jsSetOfList (l : List Nat) : List Nat :=
  l.foldl jsSetAdd []

/-- Trigger `OnPersonAccountCreate`: emit one calendar-creation transaction for
the fresh account. -/
def OnPersonAccountCreate (user : PersonAccount) : List Tx :=
  [Tx.createCalendarDoc (toString user._id ++ "_calendar") user.email
    false ("public") user._id]

/-- Source `getCalendar`: among the calendars whose `createdBy ?? modifiedBy`
is the given account, prefer one with the `default` flag, else the
first of the filtered list. -/
def getCalendar (calendars : List CalendarDoc) (person : Nat) :
    Option Nat :=
  let filtered := calendars.filter
    (fun c => c.createdBy.getD c.modifiedBy = person)
  match filtered.find? (fun c => c.isDefault) with
  | some c => some c._id
  | none => filtered.head?.map (fun c => c._id)

/-- Source `getEventPerson`: the holder of a copy, resolved through the copy's
calendar (must be among the queried calendars) and the
`createdBy ?? modifiedBy` account of the copy. -/
def getEventPerson (current : Event) (calendars : List CalendarDoc)
    (accounts : List PersonAccount) : Option Nat :=
  match calendars.find? (fun c => c._id = current.calendar) with
  | none => none
  | some _ =>
    let accId := current.createdBy.getD current.modifiedBy
    match accounts.find? (fun a => a._id = accId) with
    | none => none
    | some acc => some acc.person

/-- The non-hidden calendars, as queried by the triggers
(`findAll(Calendar, \x7b hidden: false \x7d)`). -/
def visibleCalendars (store : Store) : List CalendarDoc :=
  store.calendars.filter (fun c => c.hidden = false)

/-- The accounts of the event's participants, as queried by the create
path (`findAll(PersonAccount, \x7b person: \x7b $in: participants \x7d \x7d)`). -/
def participantAccounts (store : Store) (event : Event) :
    List PersonAccount :=
  store.accounts.filter (fun a => a.person ∈ event.participants)

/-- The reader-copy attributes `\x7b ...data, calendar, access: reader \x7d`. -/
def copyData (event : Event) (cal : Nat) : EventCopyData :=
  { origId := event._id
    eventId := event.eventId
    calendar := cal
    access := "reader"
    participants := event.participants
    createdBy := event.createdBy
    modifiedByOrig := event.modifiedBy
    visibility := event.visibility
    payload := event.payload }

/-- The nested reader-copy creation transaction emitted for one
participant's account. -/
def mkCopyTx (event : Event) (cal : Nat) (accId : Nat) : Tx :=
  Tx.collectionCUD event.attachedToClass event.attachedTo event.space
    event.collection (some accId)
    (Tx.createEventDoc event._class event.space (copyData event cal) accId)

/-- The per-participant body shared by `onEventCreate` and
`eventForNewParticipants`: resolve the account, skip the event's own
actor, resolve a calendar, emit the nested create. -/
def participantCopyTx (event : Event) (calendars : List CalendarDoc)
    (accounts : List PersonAccount) (part : Nat) : Option Tx :=
  match accounts.find? (fun a => a.person = part) with
  | none => none
  | some acc =>
    if acc._id = event.createdBy.getD event.modifiedBy then none
    else
      match getCalendar calendars acc._id with
      | none => none
      | some cal => some (mkCopyTx event cal acc._id)

/-- Source `eventForNewParticipants`. -/
def eventForNewParticipants (event : Event) (newParticipants : List Nat)
    (calendars : List CalendarDoc) (storeAccounts : List PersonAccount) :
    List Tx :=
  let accounts := storeAccounts.filter
    (fun a => a.person ∈ event.participants)
  newParticipants.filterMap (participantCopyTx event calendars accounts)

/-- Source `onEventCreate`. -/
def onEventCreate (event : Event) (store : Store) : List Tx :=
  if event.access ≠ "owner" then []
  else
    let calendars := visibleCalendars store
    let accounts := participantAccounts store event
    event.participants.filterMap (participantCopyTx event calendars accounts)

/-- The removal transaction emitted for a stale copy inside the update
loop (a collection-scoped `TxRemoveDoc`). -/
def mkRemoveCopyTx (ev : Event) : Tx :=
  Tx.collectionCUD ev.attachedToClass ev.attachedTo ev.space ev.collection
    none (Tx.removeEventDoc ev._class ev.space ev._id)

/-- The update transaction emitted for a still-invited copy inside the
update loop. -/
def mkUpdateCopyTx (ev : Event) (ops : List (String × String)) : Tx :=
  Tx.collectionCUD ev.attachedToClass ev.attachedTo ev.space ev.collection
    none (Tx.updateEventDoc ev._class ev.space ev._id ops)

/-- The `for (const ev of events)` loop of `onEventUpdate`: emit a
removal or an update per existing copy, and delete still-invited
holders from the new-participants set. -/
def processCopies (event : Event) (calendars : List CalendarDoc)
    (accounts : List PersonAccount) (otherOps : List (String × String)) :
    List Event → List Nat → List Tx × List Nat
  | [], newParticipants => ([], newParticipants)
  | ev :: rest, newParticipants =>
    if ev._id = event._id then
      processCopies event calendars accounts otherOps rest newParticipants
    else
      match getEventPerson ev calendars accounts with
      | none =>
        let r := processCopies event calendars accounts otherOps rest
          newParticipants
        (mkRemoveCopyTx ev :: r.1, r.2)
      | some person =>
        if person ∈ event.participants then
          let r := processCopies event calendars accounts otherOps rest
            (newParticipants.filter (fun q => q ≠ person))
          (mkUpdateCopyTx ev otherOps :: r.1, r.2)
        else
          let r := processCopies event calendars accounts otherOps rest
            newParticipants
          (mkRemoveCopyTx ev :: r.1, r.2)

/-- An update transaction on an event: target id and operations. -/
structure TxUpdateEvent where
  objectId : Nat
  operations : List (String × String)
  deriving Repr, DecidableEq

/-- The update's field set minus `visibility`
(`const \x7b visibility, ...otherOps \x7d = ops`). -/
def otherOpsOf (ctx : TxUpdateEvent) : List (String × String) :=
  ctx.operations.filter (fun p => p.1 ≠ "visibility")

/-- Source `onEventUpdate`. -/
def onEventUpdate (ctx : TxUpdateEvent) (store : Store) : List Tx :=
  let otherOps := otherOpsOf ctx
  if otherOps.length = 0 then []
  else
    match (store.events.filter (fun e => e._id = ctx.objectId)).head? with
    | none => []
    | some event =>
      if event.access ≠ "owner" then []
      else
        let events := store.events.filter
          (fun e => e.eventId = event.eventId)
        let calendars := visibleCalendars store
        let r := processCopies event calendars store.accounts otherOps
          events (jsSetOfList event.participants)
        if r.2.length = 0 then r.1
        else r.1 ++ eventForNewParticipants event r.2 calendars
          store.accounts

/-- Source `onRemoveEvent`: look the removed event up in the removed-document
cache; owner-access events cascade a plain removal per copy sharing the
same `eventId`. -/
def onRemoveEvent (objectId : Nat) (removedMap : List (Nat × Event))
    (store : Store) : List Tx :=
  match (removedMap.find? (fun p => p.1 = objectId)).map (fun p => p.2) with
  | none => []
  | some removed =>
    if removed.access ≠ "owner" then []
    else
      (store.events.filter (fun e => e.eventId = removed.eventId)).map
        (fun cur => Tx.removeEventDoc cur._class cur.space cur._id)

/-- A document an event can be attached to, as found by
`control.findAll(event.attachedToClass, \x7b _id: event.attachedTo \x7d)`. -/
structure TargetDoc where
  _id : String
  _class : String
  deriving Repr, DecidableEq

/-- The read-only environment of the presenter helpers: the queryable
documents, the per-class presenter registries (class to resource name,
the `getHTMLPresenter` / `getTextPresenter` lookups), and the effect of
invoking a resolved presenter resource on a target document. -/
structure PresenterEnv where
  docs : List TargetDoc
  htmlPresenters : List (String × String)
  textPresenters : List (String × String)
  render : String → TargetDoc → String

/-- The `findAll(event.attachedToClass, \x7b _id: event.attachedTo \x7d,
\x7b limit: 1 \x7d)[0]` lookup shared by both presenter helpers. -/
def attachedTarget (event : Event) (env : PresenterEnv) :
    Option TargetDoc :=
  (env.docs.filter (fun d =>
    d._class = event.attachedToClass ∧ d._id = event.attachedTo)).head?

/-- Source `ReminderHTMLPresenter` (pure: codomain is `Option String`, no
transaction type occurs). -/
def ReminderHTMLPresenter (event : Event) (env : PresenterEnv) :
    Option String :=
  match attachedTarget event env with
  | none => none
  | some target =>
    match env.htmlPresenters.find? (fun p => p.1 = target._class) with
    | none => none
    | some p => some (env.render p.2 target)

/-- Source `ReminderTextPresenter` (pure: codomain is `Option String`, no
transaction type occurs). -/
def ReminderTextPresenter (event : Event) (env : PresenterEnv) :
    Option String :=
  match attachedTarget event env with
  | none => none
  | some target =>
    match env.textPresenters.find? (fun p => p.1 = target._class) with
    | none => none
    | some p => some (env.render p.2 target)

end Calendar

namespace Markup

/-- A write reaching the storage layer: `saveCollabYdoc` in the wiki
restore, `storageAdapter.put` in the controlled-doc restore. -/
inductive WriteOp where
  | saveYdoc (collabAttr : String)
  | put (blobId : String)
  deriving Repr, DecidableEq

/-- A loaded Y-document: the set of shared field names
(`ydoc.share.has(...)`). -/
structure YDoc where
  share : List String
  deriving Repr, DecidableEq

/-- Modelled from the spec: `makeCollabYdocId` of `@hcengineering/core`
(not under `src/`), a blob id derived deterministically from the
document id and attribute of a collaborative-document id. -/
def makeCollabYdocId (objectId attrName : String) : String :=
  objectId ++ "%" ++ attrName

/-- The per-document body of the `restoreWikiContentMongo` loop, given
the two loaded Y-documents (correct `content` id, wrong `description`
id).  Returns whether the document was counted as restored and the
writes performed.  The source's `storageAdapter.stat` result on the
wrong id is compared to `undefined` without `await`, so that check
never skips a document and is not a branch here. -/
def restoreWikiContentForDoc (dryRun : Bool) (docId : String)
    (ydoc1 ydoc2 : Option YDoc) : Bool × List WriteOp :=
  match ydoc1 with
  | some y1 =>
    if ("content") ∈ y1.share then (false, [])
    else
      match ydoc2 with
      | none => (false, [])
      | some _ =>
        if dryRun then (true, [])
        else (true, [WriteOp.saveYdoc (docId ++ ":content")])
  | none =>
    match ydoc2 with
    | none => (false, [])
    | some _ =>
      if dryRun then (true, [])
      else (true, [WriteOp.saveYdoc (docId ++ ":content")])

/-- Source `restoreWikiContentMongo`: iterate the wiki documents, restoring
each; returns (processed, restored, writes). -/
def restoreWikiContentMongo (dryRun : Bool)
    (docs : List (String × Option YDoc × Option YDoc)) :
    Nat × Nat × List WriteOp :=
  match docs with
  | [] => (0, 0, [])
  | (docId, y1, y2) :: rest =>
    let r := restoreWikiContentForDoc dryRun docId y1 y2
    let t := restoreWikiContentMongo dryRun rest
    (t.1 + 1, t.2.1 + (if r.1 then 1 else 0), r.2 ++ t.2.2)

/-- Source `restoreControlledDocContentForDoc`, with the host lookups passed
as values: `txAttrValue` is the created-doc attribute read from the
transaction log (`tx?.attributes[attribute]`), `storage` the set of
blob ids present in the storage adapter (queried by `stat`).  The
source's `value.includes(...)` on the one-character separator and
`value.split(...)[0]` are modelled on the character list.  Returns
whether the document counts as restored and the writes performed. -/
def restoreControlledDocContentForDoc (dryRun : Bool)
    (txAttrValue : Option String) (docId attrName : String)
    (storage : List String) : Bool × List WriteOp :=
  match txAttrValue with
  | none => (false, [])
  | some value =>
    if ':' ∉ value.data then (false, [])
    else
      let currentYdocId := String.mk (value.data.takeWhile (fun c => c ≠ ':'))
      let ydocId := makeCollabYdocId docId attrName
      if ydocId ∈ storage then (false, [])
      else
        if dryRun then (true, [])
        else
          if currentYdocId ∈ storage then
            (true, [WriteOp.put ydocId])
          else (false, [])

end Markup

namespace Calendar

/-! Sample documents used by the witness theorems. -/

/-- Owner copy of the sample event. -/
def evO : Event :=
  { _id := 1, _class := "calendar:class:Event", space := "sp"
    eventId := "ev", calendar := 10, access := "owner"
    participants := [100, 101, 102]
    attachedTo := "td", attachedToClass := "TD", collection := "events"
    createdBy := some 200, modifiedBy := 200
    visibility := some ("public"), payload := [("title", "T")] }

/-- Reader copy held by the participant with person id 101. -/
def evB : Event :=
  { _id := 2, _class := "calendar:class:Event", space := "sp"
    eventId := "ev", calendar := 11, access := "reader"
    participants := [100, 101, 102]
    attachedTo := "td", attachedToClass := "TD", collection := "events"
    createdBy := some 201, modifiedBy := 201
    visibility := some ("public"), payload := [("title", "T")] }

def cal10 : CalendarDoc :=
  { _id := 10, name := "a@x", hidden := false, visibility := "public"
    createdBy := some 200, modifiedBy := 200, isDefault := false }

def cal11 : CalendarDoc :=
  { _id := 11, name := "b@x", hidden := false, visibility := "public"
    createdBy := some 201, modifiedBy := 201, isDefault := false }

def cal12 : CalendarDoc :=
  { _id := 12, name := "c@x", hidden := false, visibility := "public"
    createdBy := some 202, modifiedBy := 202, isDefault := false }

def acc200 : PersonAccount := { _id := 200, email := "a@x", person := 100 }

def acc201 : PersonAccount := { _id := 201, email := "b@x", person := 101 }

def acc202 : PersonAccount := { _id := 202, email := "c@x", person := 102 }

/-- The sample store: one owner copy, one reader copy (holder 101), a
calendar and an account per participant. -/
def sampleStore : Store :=
  { events := [evO, evB]
    calendars := [cal10, cal11, cal12]
    accounts := [acc200, acc201, acc202] }

/-- A sample update changing the title and the visibility. -/
def sampleUpdate : TxUpdateEvent :=
  { objectId := 1, operations := [("title", "U"), ("visibility", "x")] }

/-- A sample update changing only the visibility. -/
def visOnlyUpdate : TxUpdateEvent :=
  { objectId := 1, operations := [("visibility", "x")] }

/-- A default external calendar owned by account 201. -/
def cal13 : CalendarDoc :=
  { _id := 13, name := "b2@x", hidden := false, visibility := "public"
    createdBy := some 201, modifiedBy := 201, isDefault := true }

/-- A sample presenter environment: one target document of class `TD`
with an HTML presenter registered and no text presenter. -/
def env0 : PresenterEnv :=
  { docs := [{ _id := "td", _class := "TD" }]
    htmlPresenters := [("TD", "h")]
    textPresenters := []
    render := fun r t => r ++ ":" ++ t._id }

/-- The calendars `getCalendar` restricts attention to: those whose
`createdBy ?? modifiedBy` is the given account. -/
def ownedCalendars (calendars : List CalendarDoc) (person : Nat) :
    List CalendarDoc :=
  calendars.filter (fun c => c.createdBy.getD c.modifiedBy = person)

/-- Following the spec's words (C2): a participant receives a reader
copy iff an account resolves for it, the account is not the event's
creating actor, and a calendar can be selected for the account. -/
def specReceives (event : Event) (store : Store) (part : Nat) : Bool :=
  match (participantAccounts store event).find?
      (fun a => a.person = part) with
  | none => false
  | some acc =>
    acc._id != event.createdBy.getD event.modifiedBy &&
    (getCalendar (visibleCalendars store) acc._id).isSome

/-- Following the spec's words (C2): the participants receiving a
reader copy are the participants minus the creator, minus those with
no resolvable account, minus those with no selectable calendar. -/
def specReceivers (event : Event) (store : Store) : List Nat :=
  event.participants.filter (specReceives event store)

/-- Whether a transaction is a collection-scoped update of the document
with the given id. -/
def txTargetsUpdate (i : Nat) : Tx → Bool
  | Tx.collectionCUD _ _ _ _ _ (Tx.updateEventDoc _ _ oid _) => oid = i
  | _ => false

/-- Whether a transaction is a collection-scoped removal of the
document with the given id. -/
def txTargetsRemove (i : Nat) : Tx → Bool
  | Tx.collectionCUD _ _ _ _ _ (Tx.removeEventDoc _ _ oid) => oid = i
  | _ => false

/-- Whether a transaction is a collection-scoped reader-copy creation
attributed to the given account. -/
def txCreateBy (i : Nat) : Tx → Bool
  | Tx.collectionCUD _ _ _ _ _ (Tx.createEventDoc _ _ _ m) => m = i
  | _ => false

/-- C4: an update transaction whose operation set contains only the
visibility field makes `onEventUpdate` emit zero transactions,
regardless of the store (hence of the event's access and
participants). -/
theorem onEventUpdate_visibility_only (ctx : TxUpdateEvent) (store : Store)
    (h : ∀ p ∈ ctx.operations, p.1 = "visibility") :
    onEventUpdate ctx store = [] := by
  have hops : otherOpsOf ctx = [] := by
    refine List.filter_eq_nil_iff.mpr ?_
    intro p hp
    simp [h p hp]
  unfold onEventUpdate
  simp [hops]

/-- Witness for C4 at the concrete visibility-only update. -/
theorem onEventUpdate_visibility_only_witness :
    onEventUpdate visOnlyUpdate sampleStore = [] :=
  onEventUpdate_visibility_only visOnlyUpdate sampleStore (by decide)

/-- C7: a create transaction of an event with non-owner access makes
`onEventCreate` emit nothing, and an update transaction whose stored
target event is missing or has non-owner access makes `onEventUpdate`
emit nothing. -/
theorem non_owner_triggers_skip (event : Event) (ctx : TxUpdateEvent)
    (s1 s2 : Store)
    (hc : event.access ≠ "owner")
    (hu : ∀ e, (s2.events.filter (fun x => x._id = ctx.objectId)).head? =
      some e → e.access ≠ "owner") :
    onEventCreate event s1 = [] ∧ onEventUpdate ctx s2 = [] := by
  constructor
  · unfold onEventCreate
    simp [hc]
  · unfold onEventUpdate
    cases hh : (s2.events.filter (fun x => x._id = ctx.objectId)).head? with
    | none => simp [hh]
    | some e => simp [hh, hu e hh]

/-- Witness for C7: a reader-copy creation and an update whose target
is a reader copy both emit nothing. -/
theorem non_owner_triggers_skip_witness :
    onEventCreate evB sampleStore = [] ∧
      onEventUpdate { objectId := 2, operations := [("title", "U")] }
        sampleStore = [] :=
  non_owner_triggers_skip evB
    { objectId := 2, operations := [("title", "U")] }
    sampleStore sampleStore (by decide)
    (by intro e he; simp [sampleStore, evO, evB] at he; simp [← he])

/-- C8: `OnPersonAccountCreate` emits exactly one transaction: the
creation of a calendar named after the account's email, not hidden,
public, with id derived from the account id and attributed to the
account. -/
theorem OnPersonAccountCreate_spec (user : PersonAccount) :
    OnPersonAccountCreate user =
      [Tx.createCalendarDoc (toString user._id ++ "_calendar") user.email
        false ("public") user._id] := rfl

/-- C3: a removal whose cached removed state has owner access cascades
exactly one removal per copy sharing the same `eventId`; a removal
whose cached removed state has non-owner access emits nothing. -/
theorem onRemoveEvent_spec (objectId : Nat) (rm : List (Nat × Event))
    (store : Store) (removed : Event)
    (hfind : (rm.find? (fun p => p.1 = objectId)).map (fun p => p.2) =
      some removed) :
    (removed.access = "owner" →
      onRemoveEvent objectId rm store =
        (store.events.filter (fun e => e.eventId = removed.eventId)).map
          (fun cur => Tx.removeEventDoc cur._class cur.space cur._id)) ∧
    (removed.access ≠ "owner" → onRemoveEvent objectId rm store = []) := by
  unfold onRemoveEvent
  rw [hfind]
  constructor
  · intro h
    simp [h]
  · intro h
    simp [h]

/-- Witness for C3: removing the owner copy removes every copy sharing
`eventId` "ev". -/
theorem onRemoveEvent_spec_witness :
    onRemoveEvent 1 [(1, evO)] sampleStore =
      [Tx.removeEventDoc ("calendar:class:Event") ("sp") 1,
        Tx.removeEventDoc ("calendar:class:Event") ("sp") 2] := by
  have h := (onRemoveEvent_spec 1 [(1, evO)] sampleStore evO
    (by decide)).1 (by decide)
  rw [h]
  decide

lemma ownedCalendars_idem (cals : List CalendarDoc) (p : Nat) :
    ownedCalendars (ownedCalendars cals p) p = ownedCalendars cals p := by
  unfold ownedCalendars
  rw [List.filter_filter]
  simp only [Bool.and_self]

lemma getCalendar_eq (cals : List CalendarDoc) (p : Nat) :
    getCalendar cals p =
      match (ownedCalendars cals p).find? (fun c => c.isDefault) with
      | some c => some c._id
      | none => (ownedCalendars cals p).head?.map (fun c => c._id) := rfl

/-- C5: `getCalendar` depends only on the calendars created (or, when
the creator is unknown, last modified) by the given account; among
those a default-flagged calendar wins, else the first in input order,
and when none exists the result is `none` and the participant yields
no copy transaction. -/
theorem getCalendar_spec (cals : List CalendarDoc) (p : Nat) :
    getCalendar cals p = getCalendar (ownedCalendars cals p) p ∧
    (∀ d, (ownedCalendars cals p).find? (fun c => c.isDefault) = some d →
      getCalendar cals p = some d._id) ∧
    ((ownedCalendars cals p).find? (fun c => c.isDefault) = none →
      getCalendar cals p =
        ((ownedCalendars cals p).head?).map (fun c => c._id)) ∧
    (ownedCalendars cals p = [] → getCalendar cals p = none) ∧
    (getCalendar cals p = none → ∀ event accs part acc,
      accs.find? (fun a => a.person = part) = some acc → acc._id = p →
      participantCopyTx event cals accs part = none) := by
  refine ⟨?_, ?_, ?_, ?_, ?_⟩
  · rw [getCalendar_eq cals p, getCalendar_eq (ownedCalendars cals p) p,
      ownedCalendars_idem]
  · intro d hd
    rw [getCalendar_eq, hd]
  · intro hd
    rw [getCalendar_eq, hd]
  · intro hnil
    rw [getCalendar_eq, hnil]
    rfl
  · intro hnone event accs part acc hfind hid
    unfold participantCopyTx
    rw [hfind]
    by_cases hc : acc._id = event.createdBy.getD event.modifiedBy
    · simp [hc]
    · simp [hc, hid, hnone]

/-- Witness for C5: the default external calendar 13 wins over the
order-first calendar 11 for account 201. -/
theorem getCalendar_spec_witness :
    getCalendar [cal11, cal13] 201 = some 13 := by
  have h := (getCalendar_spec [cal11, cal13] 201).2.1 cal13 (by decide)
  simpa [cal13] using h

lemma filterMap_filter_of_none {α β : Type} (f : α → Option β)
    (p : α → Bool) (l : List α)
    (h : ∀ a ∈ l, p a = false → f a = none) :
    (l.filter p).filterMap f = l.filterMap f := by
  induction l with
  | nil => rfl
  | cons a t ih =>
    have ht : ∀ x ∈ t, p x = false → f x = none :=
      fun x hx => h x (List.mem_cons_of_mem a hx)
    by_cases hpa : p a = true
    · rw [List.filter_cons_of_pos hpa, List.filterMap_cons,
        List.filterMap_cons, ih ht]
    · have hpa' : p a = false := by simpa using hpa
      rw [List.filter_cons_of_neg (by simp [hpa']), List.filterMap_cons,
        h a (List.mem_cons_self a t) hpa', ih ht]

lemma participantCopyTx_of_not_receives (event : Event) (store : Store)
    (part : Nat) (h : specReceives event store part = false) :
    participantCopyTx event (visibleCalendars store)
      (participantAccounts store event) part = none := by
  unfold specReceives at h
  unfold participantCopyTx
  cases hf : (participantAccounts store event).find?
      (fun a => a.person = part) with
  | none => rfl
  | some acc =>
    rw [hf] at h
    rcases Bool.and_eq_false_iff.mp h with h1 | h1
    · have hc : acc._id = event.createdBy.getD event.modifiedBy := by
        simpa using h1
      simp [hc]
    · have hg : getCalendar (visibleCalendars store) acc._id = none := by
        cases hg : getCalendar (visibleCalendars store) acc._id with
        | none => rfl
        | some c => rw [hg] at h1; simp at h1
      simp [hg]

lemma participantCopyTx_of_receives (event : Event) (store : Store)
    (part : Nat) (h : specReceives event store part = true) :
    ∃ acc cal,
      (participantAccounts store event).find?
        (fun a => a.person = part) = some acc ∧
      acc._id ≠ event.createdBy.getD event.modifiedBy ∧
      getCalendar (visibleCalendars store) acc._id = some cal ∧
      participantCopyTx event (visibleCalendars store)
        (participantAccounts store event) part =
          some (mkCopyTx event cal acc._id) := by
  unfold specReceives at h
  cases hf : (participantAccounts store event).find?
      (fun a => a.person = part) with
  | none => rw [hf] at h; exact absurd h (by simp)
  | some acc =>
    rw [hf] at h
    obtain ⟨h1, h2⟩ := Bool.and_eq_true_iff.mp h
    have h1' : acc._id ≠ event.createdBy.getD event.modifiedBy := by
      simpa using h1
    cases hg : getCalendar (visibleCalendars store) acc._id with
    | none => rw [hg] at h2; simp at h2
    | some cal =>
      refine ⟨acc, cal, rfl, h1', hg, ?_⟩
      unfold participantCopyTx
      rw [hf]
      simp [h1', hg]

/-- C2: for an owner-event creation, the emitted transactions are the
reader copies for exactly the participants minus the creator, minus
those with no resolvable account, minus those with no selectable
calendar; each emitted copy carries the resolved calendar, reader
access, the owner data minus the class/space/attachment fields, and is
attributed to the participant's account. -/
theorem onEventCreate_spec (event : Event) (store : Store)
    (h : event.access = "owner") :
    onEventCreate event store =
      (specReceivers event store).filterMap
        (participantCopyTx event (visibleCalendars store)
          (participantAccounts store event)) ∧
    ∀ part ∈ specReceivers event store,
      ∃ acc cal,
        (participantAccounts store event).find?
          (fun a => a.person = part) = some acc ∧
        acc._id ≠ event.createdBy.getD event.modifiedBy ∧
        getCalendar (visibleCalendars store) acc._id = some cal ∧
        participantCopyTx event (visibleCalendars store)
          (participantAccounts store event) part =
            some (mkCopyTx event cal acc._id) := by
  constructor
  · unfold onEventCreate
    rw [if_neg (by simp [h])]
    unfold specReceivers
    exact (filterMap_filter_of_none _ _ _
      (fun a _ ha => participantCopyTx_of_not_receives event store a ha)).symm
  · intro part hp
    exact participantCopyTx_of_receives event store part
      (List.mem_filter.mp hp).2

/-- Witness for C2: creating the sample owner event emits copies for
participants 101 and 102 (100 is the creator's person). -/
theorem onEventCreate_spec_witness :
    onEventCreate evO sampleStore =
      [mkCopyTx evO 11 201, mkCopyTx evO 12 202] := by
  have h := (onEventCreate_spec evO sampleStore (by decide)).1
  rw [h]
  decide

lemma txTargetsUpdate_mkUpdate (ev : Event) (ops : List (String × String))
    (i : Nat) :
    txTargetsUpdate i (mkUpdateCopyTx ev ops) = decide (ev._id = i) := rfl

lemma txTargetsUpdate_mkRemove (ev : Event) (i : Nat) :
    txTargetsUpdate i (mkRemoveCopyTx ev) = false := rfl

lemma txTargetsRemove_mkRemove (ev : Event) (i : Nat) :
    txTargetsRemove i (mkRemoveCopyTx ev) = decide (ev._id = i) := rfl

lemma txTargetsRemove_mkUpdate (ev : Event) (ops : List (String × String))
    (i : Nat) :
    txTargetsRemove i (mkUpdateCopyTx ev ops) = false := rfl

lemma txTargetsUpdate_mkCopy (event : Event) (cal accId i : Nat) :
    txTargetsUpdate i (mkCopyTx event cal accId) = false := rfl

lemma txTargetsRemove_mkCopy (event : Event) (cal accId i : Nat) :
    txTargetsRemove i (mkCopyTx event cal accId) = false := rfl

lemma txCreateBy_mkCopy (event : Event) (cal accId i : Nat) :
    txCreateBy i (mkCopyTx event cal accId) = decide (accId = i) := rfl

lemma txCreateBy_mkUpdate (ev : Event) (ops : List (String × String))
    (i : Nat) :
    txCreateBy i (mkUpdateCopyTx ev ops) = false := rfl

lemma txCreateBy_mkRemove (ev : Event) (i : Nat) :
    txCreateBy i (mkRemoveCopyTx ev) = false := rfl

lemma participantCopyTx_shape (event : Event) (cals : List CalendarDoc)
    (accs : List PersonAccount) (part : Nat) (t : Tx)
    (h : participantCopyTx event cals accs part = some t) :
    ∃ cal acc, accs.find? (fun a => a.person = part) = some acc ∧
      t = mkCopyTx event cal acc._id := by
  unfold participantCopyTx at h
  cases hf : accs.find? (fun a => a.person = part) with
  | none => rw [hf] at h; cases h
  | some acc =>
    rw [hf] at h
    simp only [] at h
    by_cases hc : acc._id = event.createdBy.getD event.modifiedBy
    · rw [if_pos hc] at h; cases h
    · rw [if_neg hc] at h
      cases hg : getCalendar cals acc._id with
      | none => rw [hg] at h; simp only [] at h; cases h
      | some cal =>
        rw [hg] at h
        simp only [] at h
        exact ⟨cal, acc, rfl, (Option.some_inj.mp h).symm⟩

/-- Every transaction produced by `eventForNewParticipants` is a
reader-copy creation, hence neither an update nor a removal of an
existing document. -/
lemma eventForNewParticipants_no_targets (event : Event)
    (nps : List Nat) (cals : List CalendarDoc)
    (accsStore : List PersonAccount) (i : Nat) :
    (eventForNewParticipants event nps cals accsStore).countP
      (txTargetsUpdate i) = 0 ∧
    (eventForNewParticipants event nps cals accsStore).countP
      (txTargetsRemove i) = 0 := by
  constructor <;>
  · rw [List.countP_eq_zero]
    intro t ht
    obtain ⟨part, _, hsome⟩ := List.mem_filterMap.mp ht
    obtain ⟨cal, acc, _, rfl⟩ :=
      participantCopyTx_shape _ _ _ _ _ hsome
    simp [txTargetsUpdate_mkCopy, txTargetsRemove_mkCopy]

/-- The update-loop transactions never target a document other than
the iterated copies. -/
lemma processCopies_countP_notmem (event : Event)
    (cals : List CalendarDoc) (accs : List PersonAccount)
    (ops : List (String × String)) (i : Nat) :
    ∀ (l : List Event), (∀ e ∈ l, e._id ≠ i) → ∀ (nps : List Nat),
      ((processCopies event cals accs ops l nps).1).countP
        (txTargetsUpdate i) = 0 ∧
      ((processCopies event cals accs ops l nps).1).countP
        (txTargetsRemove i) = 0 := by
  intro l
  induction l with
  | nil => intro _ nps; exact ⟨rfl, rfl⟩
  | cons ev rest ih =>
    intro h nps
    have hrest : ∀ e ∈ rest, e._id ≠ i :=
      fun e he => h e (List.mem_cons_of_mem ev he)
    have hev : ev._id ≠ i := h ev (List.mem_cons_self ev rest)
    simp only [processCopies]
    by_cases hid : ev._id = event._id
    · rw [if_pos hid]
      exact ih hrest nps
    · rw [if_neg hid]
      cases hp : getEventPerson ev cals accs with
      | none =>
        have h2 := ih hrest nps
        refine ⟨?_, ?_⟩
        · rw [List.countP_cons, h2.1]
          simp [txTargetsUpdate_mkRemove]
        · rw [List.countP_cons, h2.2]
          simp [txTargetsRemove_mkRemove, hev]
      | some person =>
        simp only []
        by_cases hin : person ∈ event.participants
        · rw [if_pos hin]
          have h2 := ih hrest (nps.filter (fun q => q ≠ person))
          refine ⟨?_, ?_⟩
          · rw [List.countP_cons, h2.1]
            simp [txTargetsUpdate_mkUpdate, hev]
          · rw [List.countP_cons, h2.2]
            simp [txTargetsRemove_mkUpdate]
        · rw [if_neg hin]
          have h2 := ih hrest nps
          refine ⟨?_, ?_⟩
          · rw [List.countP_cons, h2.1]
            simp [txTargetsUpdate_mkRemove]
          · rw [List.countP_cons, h2.2]
            simp [txTargetsRemove_mkRemove, hev]

/-- In the update loop, a still-invited copy receives exactly one
update transaction carrying the propagated operations, and no
removal. -/
lemma processCopies_count_update (event : Event) (cals : List CalendarDoc)
    (accs : List PersonAccount) (ops : List (String × String)) (ev : Event)
    (person : Nat)
    (hp : getEventPerson ev cals accs = some person)
    (hin : person ∈ event.participants)
    (hne : ev._id ≠ event._id) :
    ∀ (l : List Event), ev ∈ l → (l.map (fun e => e._id)).Nodup →
      ∀ (nps : List Nat),
      ((processCopies event cals accs ops l nps).1).countP
        (txTargetsUpdate ev._id) = 1 ∧
      mkUpdateCopyTx ev ops ∈ (processCopies event cals accs ops l nps).1 ∧
      ((processCopies event cals accs ops l nps).1).countP
        (txTargetsRemove ev._id) = 0 := by
  intro l
  induction l with
  | nil => intro hm; cases hm
  | cons ev0 rest ih =>
    intro hm hnodup nps
    rw [List.map_cons, List.nodup_cons] at hnodup
    obtain ⟨hnotin, hnodup2⟩ := hnodup
    rcases List.mem_cons.mp hm with heq | hm2
    · subst heq
      simp only [processCopies]
      rw [if_neg hne, hp]
      simp only []
      rw [if_pos hin]
      have hrest0 : ∀ e ∈ rest, e._id ≠ ev._id := by
        intro e he hc
        exact hnotin (hc ▸ List.mem_map_of_mem (fun e => e._id) he)
      have hz := processCopies_countP_notmem event cals accs ops ev._id
        rest hrest0 (nps.filter (fun q => q ≠ person))
      refine ⟨?_, ?_, ?_⟩
      · rw [List.countP_cons, hz.1]
        simp [txTargetsUpdate_mkUpdate]
      · exact List.mem_cons_self _ _
      · rw [List.countP_cons, hz.2]
        simp [txTargetsRemove_mkUpdate]
    · have hne0 : ev0._id ≠ ev._id := by
        intro hc
        exact hnotin (by rw [hc]; exact List.mem_map_of_mem (fun e => e._id) hm2)
      simp only [processCopies]
      by_cases hid0 : ev0._id = event._id
      · rw [if_pos hid0]
        exact ih hm2 hnodup2 nps
      · rw [if_neg hid0]
        cases hp0 : getEventPerson ev0 cals accs with
        | none =>
          have h2 := ih hm2 hnodup2 nps
          refine ⟨?_, ?_, ?_⟩
          · rw [List.countP_cons, h2.1]
            simp [txTargetsUpdate_mkRemove]
          · exact List.mem_cons_of_mem _ h2.2.1
          · rw [List.countP_cons, h2.2.2]
            simp [txTargetsRemove_mkRemove, hne0]
        | some person0 =>
          simp only []
          by_cases hin0 : person0 ∈ event.participants
          · rw [if_pos hin0]
            have h2 := ih hm2 hnodup2 (nps.filter (fun q => q ≠ person0))
            refine ⟨?_, ?_, ?_⟩
            · rw [List.countP_cons, h2.1]
              simp [txTargetsUpdate_mkUpdate, hne0]
            · exact List.mem_cons_of_mem _ h2.2.1
            · rw [List.countP_cons, h2.2.2]
              simp [txTargetsRemove_mkUpdate]
          · rw [if_neg hin0]
            have h2 := ih hm2 hnodup2 nps
            refine ⟨?_, ?_, ?_⟩
            · rw [List.countP_cons, h2.1]
              simp [txTargetsUpdate_mkRemove]
            · exact List.mem_cons_of_mem _ h2.2.1
            · rw [List.countP_cons, h2.2.2]
              simp [txTargetsRemove_mkRemove, hne0]

/-- In the update loop, a copy whose holder is unresolvable or no
longer invited receives exactly one removal transaction, and no
update. -/
lemma processCopies_count_remove (event : Event) (cals : List CalendarDoc)
    (accs : List PersonAccount) (ops : List (String × String)) (ev : Event)
    (hp : ∀ person, getEventPerson ev cals accs = some person →
      person ∉ event.participants)
    (hne : ev._id ≠ event._id) :
    ∀ (l : List Event), ev ∈ l → (l.map (fun e => e._id)).Nodup →
      ∀ (nps : List Nat),
      ((processCopies event cals accs ops l nps).1).countP
        (txTargetsRemove ev._id) = 1 ∧
      mkRemoveCopyTx ev ∈ (processCopies event cals accs ops l nps).1 ∧
      ((processCopies event cals accs ops l nps).1).countP
        (txTargetsUpdate ev._id) = 0 := by
  intro l
  induction l with
  | nil => intro hm; cases hm
  | cons ev0 rest ih =>
    intro hm hnodup nps
    rw [List.map_cons, List.nodup_cons] at hnodup
    obtain ⟨hnotin, hnodup2⟩ := hnodup
    rcases List.mem_cons.mp hm with heq | hm2
    · subst heq
      have hrest0 : ∀ e ∈ rest, e._id ≠ ev._id := by
        intro e he hc
        exact hnotin (hc ▸ List.mem_map_of_mem (fun e => e._id) he)
      simp only [processCopies]
      rw [if_neg hne]
      have hz := processCopies_countP_notmem event cals accs ops ev._id
        rest hrest0 nps
      cases hp0 : getEventPerson ev cals accs with
      | none =>
        simp only []
        refine ⟨?_, List.mem_cons_self _ _, ?_⟩
        · rw [List.countP_cons, hz.2]
          simp [txTargetsRemove_mkRemove]
        · rw [List.countP_cons, hz.1]
          simp [txTargetsUpdate_mkRemove]
      | some person0 =>
        simp only []
        rw [if_neg (hp person0 hp0)]
        refine ⟨?_, List.mem_cons_self _ _, ?_⟩
        · rw [List.countP_cons, hz.2]
          simp [txTargetsRemove_mkRemove]
        · rw [List.countP_cons, hz.1]
          simp [txTargetsUpdate_mkRemove]
    · have hne0 : ev0._id ≠ ev._id := by
        intro hc
        exact hnotin (by rw [hc]; exact List.mem_map_of_mem (fun e => e._id) hm2)
      simp only [processCopies]
      by_cases hid0 : ev0._id = event._id
      · rw [if_pos hid0]
        exact ih hm2 hnodup2 nps
      · rw [if_neg hid0]
        cases hp0 : getEventPerson ev0 cals accs with
        | none =>
          have h2 := ih hm2 hnodup2 nps
          refine ⟨?_, ?_, ?_⟩
          · rw [List.countP_cons, h2.1]
            simp [txTargetsRemove_mkRemove, hne0]
          · exact List.mem_cons_of_mem _ h2.2.1
          · rw [List.countP_cons, h2.2.2]
            simp [txTargetsUpdate_mkRemove]
        | some person0 =>
          simp only []
          by_cases hin0 : person0 ∈ event.participants
          · rw [if_pos hin0]
            have h2 := ih hm2 hnodup2 (nps.filter (fun q => q ≠ person0))
            refine ⟨?_, ?_, ?_⟩
            · rw [List.countP_cons, h2.1]
              simp [txTargetsRemove_mkUpdate]
            · exact List.mem_cons_of_mem _ h2.2.1
            · rw [List.countP_cons, h2.2.2]
              simp [txTargetsUpdate_mkUpdate, hne0]
          · rw [if_neg hin0]
            have h2 := ih hm2 hnodup2 nps
            refine ⟨?_, ?_, ?_⟩
            · rw [List.countP_cons, h2.1]
              simp [txTargetsRemove_mkRemove, hne0]
            · exact List.mem_cons_of_mem _ h2.2.1
            · rw [List.countP_cons, h2.2.2]
              simp [txTargetsUpdate_mkRemove]

/-- Running `onEventUpdate` on an owner event with non-visibility changes:
the loop transactions, then (when the new-participants set is
non-empty) the creations. -/
lemma onEventUpdate_eq (ctx : TxUpdateEvent) (store : Store) (event : Event)
    (hops : otherOpsOf ctx ≠ [])
    (hev : (store.events.filter (fun e => e._id = ctx.objectId)).head? =
      some event)
    (hacc : event.access = "owner") :
    onEventUpdate ctx store =
      (if ((processCopies event (visibleCalendars store) store.accounts
            (otherOpsOf ctx)
            (store.events.filter (fun e => e.eventId = event.eventId))
            (jsSetOfList event.participants)).2).length = 0 then
          (processCopies event (visibleCalendars store) store.accounts
            (otherOpsOf ctx)
            (store.events.filter (fun e => e.eventId = event.eventId))
            (jsSetOfList event.participants)).1
        else
          (processCopies event (visibleCalendars store) store.accounts
            (otherOpsOf ctx)
            (store.events.filter (fun e => e.eventId = event.eventId))
            (jsSetOfList event.participants)).1 ++
          eventForNewParticipants event
            (processCopies event (visibleCalendars store) store.accounts
              (otherOpsOf ctx)
              (store.events.filter (fun e => e.eventId = event.eventId))
              (jsSetOfList event.participants)).2
            (visibleCalendars store) store.accounts) := by
  unfold onEventUpdate
  rw [if_neg (fun h => hops (List.length_eq_zero.mp h)), hev]
  simp only []
  rw [if_neg (by simp [hacc])]

/-- The update trigger's output is the loop transactions followed by a
tail that contains no update or removal of an existing document. -/
lemma onEventUpdate_decomp (ctx : TxUpdateEvent) (store : Store)
    (event : Event)
    (hops : otherOpsOf ctx ≠ [])
    (hev : (store.events.filter (fun e => e._id = ctx.objectId)).head? =
      some event)
    (hacc : event.access = "owner") :
    ∃ tail, onEventUpdate ctx store =
      (processCopies event (visibleCalendars store) store.accounts
        (otherOpsOf ctx)
        (store.events.filter (fun e => e.eventId = event.eventId))
        (jsSetOfList event.participants)).1 ++ tail ∧
      ∀ i, tail.countP (txTargetsUpdate i) = 0 ∧
        tail.countP (txTargetsRemove i) = 0 := by
  rw [onEventUpdate_eq ctx store event hops hev hacc]
  by_cases h0 : ((processCopies event (visibleCalendars store)
      store.accounts (otherOpsOf ctx)
      (store.events.filter (fun e => e.eventId = event.eventId))
      (jsSetOfList event.participants)).2).length = 0
  · rw [if_pos h0]
    exact ⟨[], (List.append_nil _).symm, fun i => ⟨rfl, rfl⟩⟩
  · rw [if_neg h0]
    exact ⟨_, rfl, fun i => eventForNewParticipants_no_targets event _ _ _ i⟩

/-- C1: on an owner-event update changing a non-visibility field, every
existing sibling copy whose resolved holder is still invited receives
exactly one update transaction carrying the same field changes minus
visibility and no removal, and every sibling copy whose holder is
unresolvable or no longer invited receives exactly one removal
transaction and never an update. -/
theorem onEventUpdate_sibling_spec (ctx : TxUpdateEvent) (store : Store)
    (event ev : Event)
    (hops : otherOpsOf ctx ≠ [])
    (hev : (store.events.filter (fun e => e._id = ctx.objectId)).head? =
      some event)
    (hacc : event.access = "owner")
    (hnodup : (store.events.map (fun e => e._id)).Nodup)
    (hmem : ev ∈ store.events) (heid : ev.eventId = event.eventId)
    (hne : ev._id ≠ event._id) :
    (∀ person,
      getEventPerson ev (visibleCalendars store) store.accounts =
        some person →
      person ∈ event.participants →
      (onEventUpdate ctx store).countP (txTargetsUpdate ev._id) = 1 ∧
      mkUpdateCopyTx ev (otherOpsOf ctx) ∈ onEventUpdate ctx store ∧
      (onEventUpdate ctx store).countP (txTargetsRemove ev._id) = 0) ∧
    ((∀ person,
      getEventPerson ev (visibleCalendars store) store.accounts =
        some person →
      person ∉ event.participants) →
      (onEventUpdate ctx store).countP (txTargetsRemove ev._id) = 1 ∧
      mkRemoveCopyTx ev ∈ onEventUpdate ctx store ∧
      (onEventUpdate ctx store).countP (txTargetsUpdate ev._id) = 0) := by
  obtain ⟨tail, hdec, htail⟩ := onEventUpdate_decomp ctx store event hops
    hev hacc
  have hmem2 : ev ∈ store.events.filter (fun e => e.eventId = event.eventId) :=
    List.mem_filter.mpr ⟨hmem, by simp [heid]⟩
  have hnodup2 : (((store.events.filter
      (fun e => e.eventId = event.eventId)).map (fun e => e._id))).Nodup :=
    hnodup.sublist ((List.filter_sublist _).map _)
  constructor
  · intro person hp hin
    have h := processCopies_count_update event (visibleCalendars store)
      store.accounts (otherOpsOf ctx) ev person hp hin hne _ hmem2 hnodup2
      (jsSetOfList event.participants)
    rw [hdec]
    refine ⟨?_, ?_, ?_⟩
    · rw [List.countP_append, h.1, (htail ev._id).1]
    · exact List.mem_append_left _ h.2.1
    · rw [List.countP_append, h.2.2, (htail ev._id).2]
  · intro hnp
    have h := processCopies_count_remove event (visibleCalendars store)
      store.accounts (otherOpsOf ctx) ev hnp hne _ hmem2 hnodup2
      (jsSetOfList event.participants)
    rw [hdec]
    refine ⟨?_, ?_, ?_⟩
    · rw [List.countP_append, h.1, (htail ev._id).2]
    · exact List.mem_append_left _ h.2.1
    · rw [List.countP_append, h.2.2, (htail ev._id).1]

/-- Witness for C1: updating the sample owner event's title produces
exactly one update transaction for the reader copy of participant 101
(still invited) and no removal of it. -/
theorem onEventUpdate_sibling_spec_witness :
    (onEventUpdate sampleUpdate sampleStore).countP (txTargetsUpdate 2) = 1 ∧
    mkUpdateCopyTx evB [("title", "U")] ∈ onEventUpdate sampleUpdate sampleStore ∧
    (onEventUpdate sampleUpdate sampleStore).countP (txTargetsRemove 2) = 0 :=
  (onEventUpdate_sibling_spec sampleUpdate sampleStore evO evB
    (by decide) (by decide) (by decide) (by decide) (by decide) (by decide)
    (by decide)).1 101 (by decide) (by decide)

lemma jsSetOfList_aux (l : List Nat) :
    ∀ acc : List Nat, acc.Nodup →
      ((l.foldl jsSetAdd acc).Nodup ∧
        ∀ x, x ∈ l.foldl jsSetAdd acc ↔ x ∈ acc ∨ x ∈ l) := by
  induction l with
  | nil =>
    intro acc h
    exact ⟨h, fun x => by simp⟩
  | cons a t ih =>
    intro acc h
    have hadd : (jsSetAdd acc a).Nodup := by
      unfold jsSetAdd
      split
      · exact h
      · next hnotin =>
        refine List.nodup_append.mpr ⟨h, List.nodup_singleton a, ?_⟩
        intro x hx hx1
        rw [List.mem_singleton] at hx1
        exact hnotin (hx1 ▸ hx)
    have hmemadd : ∀ x, x ∈ jsSetAdd acc a ↔ x ∈ acc ∨ x = a := by
      intro x
      unfold jsSetAdd
      split
      · next hin =>
        constructor
        · exact fun hx => Or.inl hx
        · rintro (hx | rfl)
          · exact hx
          · exact hin
      · simp [List.mem_append]
    obtain ⟨h1, h2⟩ := ih (jsSetAdd acc a) hadd
    refine ⟨h1, fun x => ?_⟩
    rw [List.foldl_cons, h2 x, hmemadd x]
    constructor
    · rintro ((hx | rfl) | hx)
      · exact Or.inl hx
      · exact Or.inr (List.mem_cons_self _ _)
      · exact Or.inr (List.mem_cons_of_mem _ hx)
    · rintro (hx | hx)
      · exact Or.inl (Or.inl hx)
      · rcases List.mem_cons.mp hx with rfl | hx
        · exact Or.inl (Or.inr rfl)
        · exact Or.inr hx

lemma jsSetOfList_nodup (l : List Nat) : (jsSetOfList l).Nodup :=
  (jsSetOfList_aux l [] List.nodup_nil).1

lemma mem_jsSetOfList (l : List Nat) (x : Nat) :
    x ∈ jsSetOfList l ↔ x ∈ l := by
  rw [jsSetOfList, (jsSetOfList_aux l [] List.nodup_nil).2 x]
  simp

/-- A participant not resolved from any iterated copy survives in the
new-participants set. -/
lemma processCopies_snd_mem (event : Event) (cals : List CalendarDoc)
    (accs : List PersonAccount) (ops : List (String × String)) (p : Nat) :
    ∀ (l : List Event) (nps : List Nat), p ∈ nps →
      (∀ e ∈ l, e._id ≠ event._id →
        getEventPerson e cals accs ≠ some p) →
      p ∈ (processCopies event cals accs ops l nps).2 := by
  intro l
  induction l with
  | nil => intro nps hp _; exact hp
  | cons ev rest ih =>
    intro nps hp hno
    have hnorest : ∀ e ∈ rest, e._id ≠ event._id →
        getEventPerson e cals accs ≠ some p :=
      fun e he => hno e (List.mem_cons_of_mem ev he)
    simp only [processCopies]
    by_cases hid : ev._id = event._id
    · rw [if_pos hid]
      exact ih nps hp hnorest
    · rw [if_neg hid]
      cases hpp : getEventPerson ev cals accs with
      | none =>
        simp only []
        exact ih nps hp hnorest
      | some person =>
        simp only []
        by_cases hin : person ∈ event.participants
        · rw [if_pos hin]
          simp only []
          refine ih _ ?_ hnorest
          refine List.mem_filter.mpr ⟨hp, ?_⟩
          have : person ≠ p := by
            intro hcontra
            exact hno ev (List.mem_cons_self ev rest) hid
              (hcontra ▸ hpp)
          simp [Ne.symm this]
        · rw [if_neg hin]
          simp only []
          exact ih nps hp hnorest

/-- The new-participants set stays duplicate free. -/
lemma processCopies_snd_nodup (event : Event) (cals : List CalendarDoc)
    (accs : List PersonAccount) (ops : List (String × String)) :
    ∀ (l : List Event) (nps : List Nat), nps.Nodup →
      ((processCopies event cals accs ops l nps).2).Nodup := by
  intro l
  induction l with
  | nil => intro nps h; exact h
  | cons ev rest ih =>
    intro nps h
    simp only [processCopies]
    by_cases hid : ev._id = event._id
    · rw [if_pos hid]
      exact ih nps h
    · rw [if_neg hid]
      cases hpp : getEventPerson ev cals accs with
      | none => simp only []; exact ih nps h
      | some person =>
        simp only []
        by_cases hin : person ∈ event.participants
        · rw [if_pos hin]
          simp only []
          exact ih _ (h.filter _)
        · rw [if_neg hin]
          simp only []
          exact ih nps h

/-- The update loop emits no reader-copy creations. -/
lemma processCopies_no_creates (event : Event) (cals : List CalendarDoc)
    (accs : List PersonAccount) (ops : List (String × String)) (i : Nat) :
    ∀ (l : List Event) (nps : List Nat),
      ((processCopies event cals accs ops l nps).1).countP
        (txCreateBy i) = 0 := by
  intro l
  induction l with
  | nil => intro nps; rfl
  | cons ev rest ih =>
    intro nps
    simp only [processCopies]
    by_cases hid : ev._id = event._id
    · rw [if_pos hid]
      exact ih nps
    · rw [if_neg hid]
      cases hpp : getEventPerson ev cals accs with
      | none =>
        simp only []
        rw [List.countP_cons, ih nps]
        simp [txCreateBy_mkRemove]
      | some person =>
        simp only []
        by_cases hin : person ∈ event.participants
        · rw [if_pos hin]
          simp only []
          rw [List.countP_cons, ih _]
          simp [txCreateBy_mkUpdate]
        · rw [if_neg hin]
          simp only []
          rw [List.countP_cons, ih nps]
          simp [txCreateBy_mkRemove]

/-- A `filterMap` over a duplicate-free list where exactly one element
yields a transaction matching the predicate. -/
lemma countP_filterMap_unique {α β : Type} (f : α → Option β)
    (pred : β → Bool) :
    ∀ (l : List α) (a : α) (b : β), l.Nodup → a ∈ l → f a = some b →
      pred b = true →
      (∀ x ∈ l, x ≠ a → ∀ y, f x = some y → pred y = false) →
      (l.filterMap f).countP pred = 1 ∧ b ∈ l.filterMap f := by
  intro l
  induction l with
  | nil => intro a b _ ha; cases ha
  | cons x t ih =>
    intro a b hnodup ha hfa hb hothers
    rw [List.nodup_cons] at hnodup
    obtain ⟨hxn, hnd⟩ := hnodup
    rcases List.mem_cons.mp ha with rfl | hat
    · rw [List.filterMap_cons_some hfa]
      have hz : (t.filterMap f).countP pred = 0 := by
        rw [List.countP_eq_zero]
        intro y hy
        obtain ⟨x2, hx2, hfx2⟩ := List.mem_filterMap.mp hy
        have hne : x2 ≠ a := fun hcontra => hxn (hcontra ▸ hx2)
        simp [hothers x2 (List.mem_cons_of_mem a hx2) hne y hfx2]
      refine ⟨?_, List.mem_cons_self _ _⟩
      rw [List.countP_cons, hz, hb]
      rfl
    · have hxa : x ≠ a := fun hcontra => hxn (hcontra ▸ hat)
      have hothers2 : ∀ z ∈ t, z ≠ a → ∀ y, f z = some y → pred y = false :=
        fun z hz => hothers z (List.mem_cons_of_mem x hz)
      have ihr := ih a b hnd hat hfa hb hothers2
      cases hfx : f x with
      | none =>
        rw [List.filterMap_cons_none hfx]
        exact ihr
      | some y =>
        rw [List.filterMap_cons_some hfx]
        have hy := hothers x (List.mem_cons_self x t) hxa y hfx
        refine ⟨?_, List.mem_cons_of_mem _ ihr.2⟩
        rw [List.countP_cons, ihr.1, hy]
        rfl

/-- The per-participant creation at resolved account and calendar. -/
lemma participantCopyTx_some (event : Event) (cals : List CalendarDoc)
    (accs : List PersonAccount) (part : Nat) (acc : PersonAccount)
    (cal : Nat)
    (hfind : accs.find? (fun a => a.person = part) = some acc)
    (hcreator : acc._id ≠ event.createdBy.getD event.modifiedBy)
    (hcal : getCalendar cals acc._id = some cal) :
    participantCopyTx event cals accs part =
      some (mkCopyTx event cal acc._id) := by
  unfold participantCopyTx
  rw [hfind]
  simp only []
  rw [if_neg hcreator, hcal]

/-- C6: on an owner-event update, a participant with no existing
sibling copy receives exactly one creation transaction, built by the
same per-participant creation logic as event creation (resolve
account, skip the event's actor, resolve calendar, emit the nested
reader-copy create). -/
theorem onEventUpdate_new_participant (ctx : TxUpdateEvent) (store : Store)
    (event : Event) (p : Nat) (acc : PersonAccount) (cal : Nat)
    (hops : otherOpsOf ctx ≠ [])
    (hev : (store.events.filter (fun e => e._id = ctx.objectId)).head? =
      some event)
    (hacc : event.access = "owner")
    (hnodupAcc : (store.accounts.map (fun a => a._id)).Nodup)
    (hp : p ∈ event.participants)
    (hnocopy : ∀ e ∈ store.events, e.eventId = event.eventId →
      e._id ≠ event._id →
      getEventPerson e (visibleCalendars store) store.accounts ≠ some p)
    (hfind : (participantAccounts store event).find?
      (fun a => a.person = p) = some acc)
    (hcreator : acc._id ≠ event.createdBy.getD event.modifiedBy)
    (hcal : getCalendar (visibleCalendars store) acc._id = some cal) :
    (onEventUpdate ctx store).countP (txCreateBy acc._id) = 1 ∧
    mkCopyTx event cal acc._id ∈ onEventUpdate ctx store ∧
    participantCopyTx event (visibleCalendars store)
      (participantAccounts store event) p =
        some (mkCopyTx event cal acc._id) := by
  have hptx := participantCopyTx_some event (visibleCalendars store)
    (participantAccounts store event) p acc cal hfind hcreator hcal
  rw [onEventUpdate_eq ctx store event hops hev hacc]
  set R2 := (processCopies event (visibleCalendars store) store.accounts
    (otherOpsOf ctx)
    (store.events.filter (fun e => e.eventId = event.eventId))
    (jsSetOfList event.participants)).2 with hR2
  have hmemr2 : p ∈ R2 := by
    rw [hR2]
    apply processCopies_snd_mem
    · exact (mem_jsSetOfList _ p).mpr hp
    · intro e he hid
      have hmf := List.mem_filter.mp he
      exact hnocopy e hmf.1 (by simpa using hmf.2) hid
  have hnodupr2 : R2.Nodup := by
    rw [hR2]
    exact processCopies_snd_nodup event _ _ _ _ _ (jsSetOfList_nodup _)
  have hlen : ¬ R2.length = 0 := by
    intro h0
    rw [List.length_eq_zero] at h0
    rw [h0] at hmemr2
    cases hmemr2
  rw [if_neg hlen]
  have hefp : eventForNewParticipants event R2 (visibleCalendars store)
      store.accounts =
      R2.filterMap (participantCopyTx event (visibleCalendars store)
        (participantAccounts store event)) := rfl
  have hothers : ∀ x ∈ R2, x ≠ p → ∀ y,
      participantCopyTx event (visibleCalendars store)
        (participantAccounts store event) x = some y →
      txCreateBy acc._id y = false := by
    intro x hx hxp y hy
    obtain ⟨cal2, acc2, hfind2, rfl⟩ :=
      participantCopyTx_shape _ _ _ _ _ hy
    rw [txCreateBy_mkCopy]
    simp only [decide_eq_false_iff_not]
    intro hid2
    have hacc2mem : acc2 ∈ participantAccounts store event :=
      List.mem_of_find?_eq_some hfind2
    have haccmem : acc ∈ participantAccounts store event :=
      List.mem_of_find?_eq_some hfind
    have hsubnodup : ((participantAccounts store event).map
        (fun a => a._id)).Nodup :=
      hnodupAcc.sublist ((List.filter_sublist _).map _)
    have heq : acc2 = acc :=
      List.inj_on_of_nodup_map hsubnodup hacc2mem haccmem hid2
    have hperson2 : acc2.person = x := by
      simpa using List.find?_some hfind2
    have hpersonp : acc.person = p := by
      simpa using List.find?_some hfind
    exact hxp (by rw [← hperson2, heq, hpersonp])
  have hcount := countP_filterMap_unique
    (participantCopyTx event (visibleCalendars store)
      (participantAccounts store event))
    (txCreateBy acc._id) R2 p (mkCopyTx event cal acc._id)
    hnodupr2 hmemr2 hptx (by simp [txCreateBy_mkCopy]) hothers
  refine ⟨?_, ?_, hptx⟩
  · rw [List.countP_append, hefp, hcount.1, processCopies_no_creates]
  · rw [hefp]
    exact List.mem_append_right _ hcount.2

/-- Witness for C6: participant 102 has no copy of the sample event;
the title update creates exactly one reader copy in calendar 12
attributed to account 202. -/
theorem onEventUpdate_new_participant_witness :
    (onEventUpdate sampleUpdate sampleStore).countP (txCreateBy 202) = 1 ∧
    mkCopyTx evO 12 202 ∈ onEventUpdate sampleUpdate sampleStore ∧
    participantCopyTx evO (visibleCalendars sampleStore)
      (participantAccounts sampleStore evO) 102 =
        some (mkCopyTx evO 12 202) :=
  onEventUpdate_new_participant sampleUpdate sampleStore evO 102 acc202 12
    (by decide) (by decide) (by decide) (by decide) (by decide) (by decide)
    (by decide) (by decide) (by decide)

/-- C9: each presenter helper returns `none` when the attached record
cannot be found or no presenter is registered for its class, and
otherwise returns the result of invoking the registered presenter on
the target record; both are pure functions into `Option String` (no
transaction is emitted, no state is touched). -/
theorem reminderPresenters_spec (event : Event) (env : PresenterEnv) :
    (attachedTarget event env = none →
      ReminderHTMLPresenter event env = none ∧
      ReminderTextPresenter event env = none) ∧
    (∀ t, attachedTarget event env = some t →
      (env.htmlPresenters.find? (fun q => q.1 = t._class) = none →
        ReminderHTMLPresenter event env = none) ∧
      (∀ q, env.htmlPresenters.find? (fun q => q.1 = t._class) = some q →
        ReminderHTMLPresenter event env = some (env.render q.2 t)) ∧
      (env.textPresenters.find? (fun q => q.1 = t._class) = none →
        ReminderTextPresenter event env = none) ∧
      (∀ q, env.textPresenters.find? (fun q => q.1 = t._class) = some q →
        ReminderTextPresenter event env = some (env.render q.2 t))) := by
  constructor
  · intro h
    unfold ReminderHTMLPresenter ReminderTextPresenter
    rw [h]
    exact ⟨rfl, rfl⟩
  · intro t ht
    refine ⟨?_, ?_, ?_, ?_⟩
    · intro h
      simp [ReminderHTMLPresenter, ht, h]
    · intro q hq
      simp [ReminderHTMLPresenter, ht, hq]
    · intro h
      simp [ReminderTextPresenter, ht, h]
    · intro q hq
      simp [ReminderTextPresenter, ht, hq]

/-- Witness for C9: in the sample environment the HTML presenter
renders the target and the text presenter (unregistered) yields
`none`. -/
theorem reminderPresenters_spec_witness :
    ReminderHTMLPresenter evO env0 = some ("h:td") ∧
      ReminderTextPresenter evO env0 = none := by
  have h := (reminderPresenters_spec evO env0).2
    { _id := "td", _class := "TD" } rfl
  exact ⟨h.2.1 ("TD", "h") rfl, h.2.2.1 rfl⟩

end Calendar

namespace Markup

lemma restoreWikiContentForDoc_dryRun (docId : String)
    (y1 y2 : Option YDoc) :
    (restoreWikiContentForDoc true docId y1 y2).2 = [] := by
  cases y1 with
  | none =>
    cases y2 with
    | none => rfl
    | some y => rfl
  | some y =>
    by_cases hm : "content" ∈ y.share
    · simp [restoreWikiContentForDoc, hm]
    · cases y2 with
      | none => simp [restoreWikiContentForDoc, hm]
      | some y2 => simp [restoreWikiContentForDoc, hm]

/-- C10: with `dryRun = true` neither migration function performs a
storage write, and `restoreControlledDocContentForDoc` still counts a
document as restored when the legacy content reference is present and
no new content exists in storage. -/
theorem migration_dryRun_spec
    (docs : List (String × Option YDoc × Option YDoc))
    (txAttrValue : Option String) (docId attrName : String)
    (storage : List String) :
    (restoreWikiContentMongo true docs).2.2 = [] ∧
    (restoreControlledDocContentForDoc true txAttrValue docId attrName
      storage).2 = [] ∧
    (∀ value, txAttrValue = some value → ':' ∈ value.data →
      makeCollabYdocId docId attrName ∉ storage →
      restoreControlledDocContentForDoc true txAttrValue docId attrName
        storage = (true, [])) := by
  refine ⟨?_, ?_, ?_⟩
  · induction docs with
    | nil => rfl
    | cons d rest ih =>
      obtain ⟨docId', y1, y2⟩ := d
      unfold restoreWikiContentMongo
      simp [restoreWikiContentForDoc_dryRun, ih]
  · cases txAttrValue with
    | none => rfl
    | some value =>
      simp only [restoreControlledDocContentForDoc]
      by_cases hc : ':' ∈ value.data
      · rw [if_neg (not_not.mpr hc)]
        split
        · rfl
        · rfl
      · rw [if_pos hc]
  · intro value hv hc hnotin
    subst hv
    simp only [restoreControlledDocContentForDoc]
    rw [if_neg (not_not.mpr hc), if_neg hnotin, if_pos trivial]

/-- Witness for C10: a dry run on a document with a legacy reference
and empty new storage writes nothing and reports the document
restored. -/
theorem migration_dryRun_spec_witness :
    restoreControlledDocContentForDoc true (some ("65b7:HEAD:0")) "doc1"
        "content" ["other"] = (true, []) ∧
      (restoreWikiContentMongo true
        [("d", none, some { share := ["description"] })]).2.2 = [] := by
  have h := migration_dryRun_spec
    [("d", none, some { share := ["description"] })]
    (some ("65b7:HEAD:0")) "doc1" "content" ["other"]
  exact ⟨h.2.2 "65b7:HEAD:0" rfl (by decide) (by decide), h.1⟩

end Markup
